import Mathlib

/-!
Shallow embedding of the KStream ADT (an RC4-like stream cipher) from
`src/hw7/KStream.c` / `src/hw7/KStream.h`, together with proofs of the
specification claims about it.

Modelling decisions:
* `byte` (`unsigned char` values, always 0..255 in this program) is `Fin 256`.
* The permutation array `byte S[256]` is a `List Byte` of length 256; the
  array read `S[e]` is `S.getD e 0` (every index the program uses is already
  masked with `& 0xFF`, hence in bounds, so the default is never produced);
  the array store `S[e] = v` is `S.set e v`.
* The key array `byte key[8]` is a `List Byte` of length 8, read the same way.
* The index fields `i`, `j` are `unsigned int` in C but every store masks
  them with `& 0xFFu`, so they always hold values in [0,255]; they are
  `Fin 256` here.
* `(expr) & 0xFFu` is kept literally as `expr &&& 255` (the bridge lemma
  `land255_eq_mod` shows it equals `% 256`); `key >>= 8` is `>>> 8`.
* The 64-bit `unsigned long` key is a `Nat`; the theorems hold for every
  `Nat`, in particular for every value below 2^64.
* Buffers (`const unsigned char *` plus `size_t len`) are `List Byte`;
  `len` is the list length.
* The `KStream *` pointer that may be NULL is `Option KStream`; `malloc`
  failure is not modelled (the claims are about the non-NULL success path).
-/

set_option maxRecDepth 8000

/-- Bytes: `unsigned char` values of this program, all in [0,255]. -/
abbrev Byte := Fin 256

/-- `(expr) & 0xFFu` used to produce an index / byte: the mask yields a
value in [0,255] (masking with the all-ones low byte 0xFF is `% 256`). -/
def mask8 (n : Nat) : Byte :=
  ⟨n &&& 255, by
    have h := Nat.and_pow_two_sub_one_eq_mod n 8
    norm_num at h
    rw [h]
    exact Nat.mod_lt _ (by norm_num)⟩

/-- `struct KStream`: permutation array `S` (256 bytes), generator indices
`i`, `j`, and the key bytes (8 bytes). -/
structure KStream where
  S : List Byte
  i : Byte
  j : Byte
  key : List Byte

/-- The three-assignment temporary-variable swap of `S[a]` and `S[b]`:
`tmp = S[a]; S[a] = S[b]; S[b] = tmp`. -/
def swapAt (S : List Byte) (a b : Nat) : List Byte :=
  let tmp := S.getD a 0
  (S.set a (S.getD b 0)).set b tmp

/-- `key_to_bytes`: little-endian extraction of `n` bytes by the loop
`out[k] = key & 0xFF; key >>= 8`. -/
def key_to_bytes_loop : Nat → Nat → List Byte
  | _, 0 => []
  | key, n + 1 => mask8 key :: key_to_bytes_loop (key >>> 8) n

/-- `key_to_bytes(key, out)`: the eight-byte `out` array. -/
def key_to_bytes (key : Nat) : List Byte :=
  key_to_bytes_loop key 8

/-- One iteration of the `ks_init_state` key-scheduling loop at index `i`:
`j = (j + S[i] + key[i % 8]) & 0xFF; swap S[i], S[j]`.  The accumulator is
the pair (current `S`, current `j`). -/
def ksaStep (key : List Byte) (acc : List Byte × Byte) (i : Fin 256) :
    List Byte × Byte :=
  let j := mask8 (acc.2.val + (acc.1.getD i.val 0).val + (key.getD (i.val % 8) 0).val)
  (swapAt acc.1 i.val j.val, j)

/-- `ks_init_state`: set `S` to the identity [0,1,...,255], run the KSA
loop for `i` from 0 to 255 with `j` starting at 0 and threading across
iterations, then set `i = j = 0`.  The key bytes are read, not written. -/
def ks_init_state (ks : KStream) : KStream :=
  { ks with
    S := ((List.finRange 256).foldl (ksaStep ks.key)
      (List.finRange 256, (0 : Byte))).1,
    i := 0, j := 0 }

/-- `ks_next_byte`: one PRGA step.  Returns the emitted byte and the new
state. -/
def ks_next_byte (ks : KStream) : Byte × KStream :=
  let i := mask8 (ks.i.val + 1)
  let j := mask8 (ks.j.val + (ks.S.getD i.val 0).val)
  let S := swapAt ks.S i.val j.val
  let B := S.getD (mask8 ((S.getD i.val 0).val + (S.getD j.val 0).val)).val 0
  (B, { ks with S := S, i := i, j := j })

/-- The state after one PRGA step, output discarded: `(void)ks_next_byte(ks)`. -/
def stepState (ks : KStream) : KStream := (ks_next_byte ks).2

/-- The `ks_prime` loop with `n` remaining iterations, each discarding one
generator byte. -/
def ks_prime_loop : Nat → KStream → KStream
  | 0, ks => ks
  | n + 1, ks => ks_prime_loop n (stepState ks)

/-- `ks_prime`: discard the first 1024 generator bytes. -/
def ks_prime (ks : KStream) : KStream := ks_prime_loop 1024 ks

/-- `ks_create`: store the key bytes, run the key schedule, prime.  The
freshly allocated struct's indeterminate fields are all overwritten by
`ks_init_state` before any read; they are rendered here as empty / zero. -/
def ks_create (key : Nat) : KStream :=
  ks_prime (ks_init_state { S := [], i := 0, j := 0, key := key_to_bytes key })

/-- The wipe step of `ks_destroy`:
`memset(S, 0, 256); memset(key, 0, 8); i = 0; j = 0` — the state of the
struct just before `free`. -/
def ks_destroy_wipe (ks : KStream) : KStream :=
  { ks with S := List.replicate 256 0, key := List.replicate 8 0, i := 0, j := 0 }

/-- `ks_destroy` at the pointer level: NULL is a no-op; otherwise the
struct is wiped and then freed (no live instance remains). -/
def ks_destroy (ks : Option KStream) : Option KStream :=
  match ks with
  | none => none
  | some s =>
    let _wiped := ks_destroy_wipe s
    none

/-- `inbuf[idx] ^ k` on two bytes (the result of XORing two values below
256 is below 256, so the `(unsigned char)` cast in the source is exact). -/
def byteXor (a b : Byte) : Byte :=
  ⟨a.val ^^^ b.val, by
    have h : a.val ^^^ b.val < 2 ^ 8 :=
      Nat.xor_lt_two_pow (by exact_mod_cast a.isLt) (by exact_mod_cast b.isLt)
    exact_mod_cast h⟩

/-- The `ks_translate` loop over the input bytes: for each input byte, pull
one generator byte `k` and emit `inbuf[idx] ^ k`.  Returns the output
bytes and the final generator state. -/
def ks_translate_list (ks : KStream) : List Byte → List Byte × KStream
  | [] => ([], ks)
  | b :: rest =>
    let r := ks_next_byte ks
    let t := ks_translate_list r.2 rest
    (byteXor b r.1 :: t.1, t.2)

/-- `ks_translate` at the C interface: a possibly-NULL instance pointer, an
input buffer, and a caller-supplied output buffer whose first
`len = inbuf.length` cells are overwritten.  `ks == NULL || len == 0`
returns at once with nothing written. -/
def ks_translate_c (ks : Option KStream) (inbuf outbuf : List Byte) :
    List Byte × Option KStream :=
  match ks with
  | none => (outbuf, none)
  | some s =>
    if inbuf.length = 0 then (outbuf, some s)
    else
      let r := ks_translate_list s inbuf
      (r.1 ++ outbuf.drop inbuf.length, some r.2)

/-- `n` successive `ks_next_byte` calls: the emitted bytes in order and the
final state. -/
def keystream (ks : KStream) : Nat → List Byte × KStream
  | 0 => ([], ks)
  | n + 1 =>
    let r := ks_next_byte ks
    let rest := keystream r.2 n
    (r.1 :: rest.1, rest.2)

/-- Several `ks_translate` calls in sequence on one instance: translate each
chunk in order, threading the generator state; the outputs concatenated. -/
def ks_translate_chunks (ks : KStream) : List (List Byte) → List Byte × KStream
  | [] => ([], ks)
  | c :: cs =>
    let r := ks_translate_list ks c
    let t := ks_translate_chunks r.2 cs
    (r.1 ++ t.1, t.2)

/-- The generator state right after the key schedule of `ks_create(key)`,
before priming. -/
def postKSA (key : Nat) : KStream :=
  ks_init_state { S := [], i := 0, j := 0, key := key_to_bytes key }

/-- The `n`-th byte (0-based) of the raw keystream of `key`: the byte the
`(n+1)`-st `ks_next_byte` call after the key schedule emits. -/
def rawByte (key : Nat) (n : Nat) : Byte :=
  (ks_next_byte (stepState^[n] (postKSA key))).1

/-- The byte sequence a generator constructed with `key` emits over its
first `n` calls — a function of the key and the call count alone. -/
def keystreamBytesOfKey (key : Nat) (n : Nat) : List Byte :=
  (keystream (ks_create key) n).1

/-- The permutation invariant: `S` is a bijection of {0,...,255}, i.e. it
holds each of the 256 byte values exactly once. -/
def isPerm (S : List Byte) : Prop :=
  S.Perm (List.finRange 256)

/-- Modelled from the spec, §4.3 Byte Generator, one step:
1. `index_i = (index_i + 1) mod 256`;
2. `index_j = (index_j + permutation[index_i]) mod 256`;
3. swap `permutation[index_i]` and `permutation[index_j]`;
4. emit `permutation[(permutation[index_i] + permutation[index_j]) mod 256]`. -/
def prgaStepSpec (ks : KStream) : Byte × KStream :=
  let i : Byte := ⟨(ks.i.val + 1) % 256, Nat.mod_lt _ (by norm_num)⟩
  let j : Byte := ⟨(ks.j.val + (ks.S.getD i.val 0).val) % 256, Nat.mod_lt _ (by norm_num)⟩
  let S := (ks.S.set i.val (ks.S.getD j.val 0)).set j.val (ks.S.getD i.val 0)
  let B := S.getD (((S.getD i.val 0).val + (S.getD j.val 0).val) % 256) 0
  (B, { ks with S := S, i := i, j := j })

/-- Modelled from the spec, §4.1 Key Expander: byte `k` of the key is
`(key >> (8*k)) & 0xFF` (little-endian extraction). -/
def keyByteSpec (key : Nat) (k : Nat) : Byte :=
  mask8 (key >>> (8 * k))

/-- Modelled from the spec, §4.2 Schedule Builder, one iteration at index
`i`: `j = (j + permutation[i] + key_bytes[i mod 8]) mod 256`, then swap
`permutation[i]` with `permutation[j]`. -/
def ksaSpecStep (key : List Byte) (acc : List Byte × Byte) (i : Fin 256) :
    List Byte × Byte :=
  let j : Byte := ⟨(acc.2.val + (acc.1.getD i.val 0).val +
      (key.getD (i.val % 8) 0).val) % 256, Nat.mod_lt _ (by norm_num)⟩
  ((acc.1.set i.val (acc.1.getD j.val 0)).set j.val (acc.1.getD i.val 0), j)

/-- Modelled from the spec, §4.2 Schedule Builder: start from the identity
sequence [0,1,...,255]; for `i` from 0 to 255 run `ksaSpecStep` (with `j`
starting at 0 and threading across iterations, not reset); finally set
`index_i = 0`, `index_j = 0`. -/
def ksaSpec (ks : KStream) : KStream :=
  { ks with
    S := ((List.finRange 256).foldl (ksaSpecStep ks.key)
      (List.finRange 256, (0 : Byte))).1,
    i := 0, j := 0 }

/-! ### Structural lemmas about the generator and the translate loop -/

/-- `n &&& 0xFF` equals `n % 256` (masking with an all-ones low byte). -/
theorem land255_eq_mod (n : Nat) : n &&& 255 = n % 256 := by
  have h := Nat.and_pow_two_sub_one_eq_mod n 8
  norm_num at h
  exact h

theorem mask8_val (n : Nat) : (mask8 n).val = n % 256 := land255_eq_mod n

theorem mask8_eq_mk (n : Nat) :
    mask8 n = ⟨n % 256, Nat.mod_lt _ (by norm_num)⟩ :=
  Fin.ext (mask8_val n)

theorem stepState_S (ks : KStream) :
    (stepState ks).S = swapAt ks.S (mask8 (ks.i.val + 1)).val
      (mask8 (ks.j.val + (ks.S.getD (mask8 (ks.i.val + 1)).val 0).val)).val := rfl

theorem keystream_length (ks : KStream) (n : Nat) :
    (keystream ks n).1.length = n := by
  induction n generalizing ks with
  | zero => rfl
  | succ n ih => simp [keystream, ih]

theorem keystream_state (ks : KStream) (n : Nat) :
    (keystream ks n).2 = stepState^[n] ks := by
  induction n generalizing ks with
  | zero => rfl
  | succ n ih =>
    rw [Function.iterate_succ_apply]
    simpa [keystream, stepState] using ih (stepState ks)

theorem ks_prime_loop_eq_iterate (n : Nat) (ks : KStream) :
    ks_prime_loop n ks = stepState^[n] ks := by
  induction n generalizing ks with
  | zero => rfl
  | succ n ih =>
    rw [Function.iterate_succ_apply]
    simpa [ks_prime_loop] using ih (stepState ks)

theorem ks_translate_list_eq (ks : KStream) (l : List Byte) :
    ks_translate_list ks l =
      (List.zipWith byteXor l (keystream ks l.length).1, (keystream ks l.length).2) := by
  induction l generalizing ks with
  | nil => rfl
  | cons b rest ih => simp [ks_translate_list, keystream, ih]

theorem ks_translate_list_length (ks : KStream) (l : List Byte) :
    (ks_translate_list ks l).1.length = l.length := by
  rw [ks_translate_list_eq]
  simp [keystream_length]

theorem byteXor_cancel (p k : Byte) : byteXor (byteXor p k) k = p := by
  apply Fin.ext
  show (p.val ^^^ k.val) ^^^ k.val = p.val
  rw [Nat.xor_assoc, Nat.xor_self, Nat.xor_zero]

theorem zipWith_byteXor_cancel (P K : List Byte) (h : P.length ≤ K.length) :
    List.zipWith byteXor (List.zipWith byteXor P K) K = P := by
  induction P generalizing K with
  | nil => simp
  | cons p ps ih =>
    cases K with
    | nil => simp at h
    | cons k ks =>
      simp only [List.zipWith, byteXor_cancel, List.cons.injEq, true_and]
      exact ih ks (by simpa using h)

theorem ks_translate_list_append (ks : KStream) (a b : List Byte) :
    ks_translate_list ks (a ++ b) =
      ((ks_translate_list ks a).1 ++ (ks_translate_list (ks_translate_list ks a).2 b).1,
       (ks_translate_list (ks_translate_list ks a).2 b).2) := by
  induction a generalizing ks with
  | nil => rfl
  | cons x xs ih => simp [ks_translate_list, ih]

theorem ks_translate_chunks_eq_join (ks : KStream) (chunks : List (List Byte)) :
    ks_translate_chunks ks chunks = ks_translate_list ks chunks.flatten := by
  induction chunks generalizing ks with
  | nil => rfl
  | cons c cs ih => simp [ks_translate_chunks, List.flatten, ks_translate_list_append, ih]

/-! ### Claim theorems -/

/-- C1: `ks_translate` writes, for every position `t` in [0, len),
`output[t] = input[t] XOR k_t` where `k_t` is the `t`-th keystream byte the
Byte Generator emits during the call (rendered as a `zipWith` with the
`len`-byte keystream, together with the output-length equation), and the
call consumes exactly `len` keystream bytes: the final generator state is
the start state advanced by exactly `len` Byte Generator steps. -/
theorem ks_translate_xors_keystream (ks : KStream) (inbuf : List Byte) :
    (ks_translate_list ks inbuf).1.length = inbuf.length ∧
    (ks_translate_list ks inbuf).1 =
      List.zipWith byteXor inbuf (keystream ks inbuf.length).1 ∧
    (ks_translate_list ks inbuf).2 = stepState^[inbuf.length] ks := by
  refine ⟨ks_translate_list_length ks inbuf, ?_, ?_⟩
  · rw [ks_translate_list_eq]
  · rw [ks_translate_list_eq]
    exact keystream_state ks inbuf.length

/-- C3: encrypting a buffer `P` on a generator freshly constructed with key
`K`, then decrypting the result on a second freshly constructed generator
with the same key `K`, returns exactly `P`. -/
theorem ks_roundtrip_identity (key : Nat) (P : List Byte) :
    (ks_translate_list (ks_create key)
      (ks_translate_list (ks_create key) P).1).1 = P := by
  rw [ks_translate_list_eq (ks_create key) P]
  have hlen : (List.zipWith byteXor P (keystream (ks_create key) P.length).1).length
      = P.length := by
    simp [keystream_length]
  rw [ks_translate_list_eq, hlen]
  exact zipWith_byteXor_cancel P (keystream (ks_create key) P.length).1
    (by simp [keystream_length])

/-- C4: translating any list of chunks in order on one generator instance
constructed with key `K` produces, concatenated, exactly the bytes a single
`ks_translate` call over the whole concatenated buffer produces on a
freshly constructed generator with the same key. -/
theorem ks_translate_chunk_invariant (key : Nat) (chunks : List (List Byte)) :
    (ks_translate_chunks (ks_create key) chunks).1 =
      (ks_translate_list (ks_create key) chunks.flatten).1 := by
  rw [ks_translate_chunks_eq_join]

/-- C7: construction runs the key schedule and then exactly 1024 discarded
Byte Generator steps, with no index reset afterwards: the freshly
constructed state is the post-key-schedule state advanced by exactly 1024
steps, and the first byte a caller observes is the 1025th byte (0-based
index 1024) of the raw keystream. -/
theorem ks_create_primes_1024 (key : Nat) :
    ks_create key = stepState^[1024] (postKSA key) ∧
    (ks_next_byte (ks_create key)).1 = rawByte key 1024 := by
  have h : ks_create key = stepState^[1024] (postKSA key) :=
    ks_prime_loop_eq_iterate 1024 (postKSA key)
  exact ⟨h, by rw [rawByte, h]⟩

/-- C8: a `ks_translate` call with `len == 0` on a valid generator returns
at once: the output buffer is returned untouched and the generator state
(permutation, indices and key bytes) is exactly the state before the call,
so the next emitted byte is unchanged. -/
theorem ks_translate_zero_len_noop (ks : KStream) (outbuf : List Byte) :
    ks_translate_c (some ks) [] outbuf = (outbuf, some ks) ∧
    ks_translate_list ks [] = ([], ks) ∧
    (ks_next_byte (ks_translate_list ks []).2) = ks_next_byte ks := by
  exact ⟨rfl, rfl, rfl⟩

/-- C9: the wipe step of `ks_destroy` leaves every one of the 256
permutation bytes zero, every one of the 8 key bytes zero, and both
indices zero, before the storage is released. -/
theorem ks_destroy_wipe_zeroizes (ks : KStream) :
    (ks_destroy_wipe ks).S = List.replicate 256 0 ∧
    (ks_destroy_wipe ks).key = List.replicate 8 0 ∧
    (ks_destroy_wipe ks).i = 0 ∧
    (ks_destroy_wipe ks).j = 0 := by
  exact ⟨rfl, rfl, rfl, rfl⟩

/-- C10: both public operations tolerate a NULL instance pointer as a
defined no-op: `ks_translate` on NULL returns with the output buffer
untouched and no state in existence, for every input buffer and length,
and `ks_destroy` on NULL returns without effect. -/
theorem ks_null_pointer_noop (inbuf outbuf : List Byte) :
    ks_translate_c none inbuf outbuf = (outbuf, none) ∧
    ks_destroy none = none := by
  exact ⟨rfl, rfl⟩

/-! ### The permutation invariant -/

theorem set_set_swap_perm (S : List Byte) (a b : Nat) (ha : a < S.length)
    (hb : b < S.length) : ((S.set a S[b]).set b S[a]).Perm S := by
  rw [List.perm_iff_count]
  intro x
  have h1 : b < (S.set a S[b]).length := by simpa using hb
  have e3 : (S.set a S[b])[b] = S[b] := by
    rw [List.getElem_set]
    split <;> rfl
  rw [List.count_set, e3, List.count_set]
  simp only [beq_iff_eq]
  by_cases hax : S[a] = x
  · have hca : 0 < List.count x S := List.count_pos_iff.mpr (hax ▸ List.getElem_mem ha)
    by_cases hbx : S[b] = x
    · simp [hax, hbx]
      omega
    · simp [hax, hbx]
      omega
  · by_cases hbx : S[b] = x
    · simp [hax, hbx]
    · simp [hax, hbx]
  · exact ha

theorem swapAt_perm (S : List Byte) (a b : Nat) (ha : a < S.length)
    (hb : b < S.length) : (swapAt S a b).Perm S := by
  have hga : S.getD a 0 = S[a] := List.getD_eq_getElem S 0 ha
  have hgb : S.getD b 0 = S[b] := List.getD_eq_getElem S 0 hb
  rw [swapAt]
  rw [hga, hgb]
  exact set_set_swap_perm S a b ha hb

theorem isPerm_length {S : List Byte} (h : isPerm S) : S.length = 256 := by
  simpa [List.length_finRange] using h.length_eq

theorem isPerm_swapAt {S : List Byte} {a b : Nat} (ha : a < 256) (hb : b < 256)
    (h : isPerm S) : isPerm (swapAt S a b) := by
  have hl := isPerm_length h
  exact (swapAt_perm S a b (by omega) (by omega)).trans h

theorem isPerm_stepState {ks : KStream} (h : isPerm ks.S) :
    isPerm (stepState ks).S := by
  rw [stepState_S]
  exact isPerm_swapAt (mask8 _).isLt (mask8 _).isLt h

theorem foldl_preserves {α β : Type} (P : α → Prop) (f : α → β → α) (l : List β)
    (hf : ∀ x y, P x → P (f x y)) : ∀ a, P a → P (l.foldl f a) := by
  induction l with
  | nil => intro a ha; exact ha
  | cons y ys ih => intro a ha; exact ih _ (hf a y ha)

theorem isPerm_ks_init_state (ks : KStream) : isPerm (ks_init_state ks).S := by
  simp only [ks_init_state]
  apply foldl_preserves (fun acc => isPerm acc.1) (ksaStep ks.key)
  · intro x y hx
    exact isPerm_swapAt y.isLt (mask8 _).isLt hx
  · exact List.Perm.refl _

theorem isPerm_iterate (n : Nat) {ks : KStream} (h : isPerm ks.S) :
    isPerm ((stepState^[n]) ks).S := by
  induction n generalizing ks with
  | zero => simpa using h
  | succ n ih =>
    rw [Function.iterate_succ_apply]
    exact ih (isPerm_stepState h)

theorem isPerm_ks_create (key : Nat) : isPerm (ks_create key).S := by
  rw [ks_create, ks_prime, ks_prime_loop_eq_iterate]
  exact isPerm_iterate 1024 (isPerm_ks_init_state _)

theorem isPerm_translate {ks : KStream} (buf : List Byte) (h : isPerm ks.S) :
    isPerm ((ks_translate_list ks buf).2).S := by
  induction buf generalizing ks with
  | nil => simpa [ks_translate_list] using h
  | cons b rest ih =>
    simpa [ks_translate_list] using ih (isPerm_stepState h)

/-- C2: for every 64-bit key the permutation array is a bijection of
{0,...,255} (each byte value present exactly once) immediately after
construction, and the property is preserved by every Byte Generator call,
hence by every `ks_translate` call of any length. -/
theorem ks_permutation_invariant :
    (∀ key : Nat, isPerm (ks_create key).S) ∧
    (∀ ks : KStream, isPerm ks.S → isPerm ((ks_next_byte ks).2).S) ∧
    (∀ (ks : KStream) (buf : List Byte), isPerm ks.S →
      isPerm ((ks_translate_list ks buf).2).S) :=
  ⟨isPerm_ks_create, fun _ h => isPerm_stepState h, fun _ buf h => isPerm_translate buf h⟩

/-- Witness for C2: the preservation clauses applied at the concrete
generator of key 0, the hypothesis discharged by the construction clause. -/
theorem ks_permutation_invariant_witness :
    isPerm ((ks_next_byte (ks_create 0)).2).S ∧
    isPerm ((ks_translate_list (ks_create 0) [0]).2).S :=
  ⟨ks_permutation_invariant.2.1 (ks_create 0) (ks_permutation_invariant.1 0),
   ks_permutation_invariant.2.2 (ks_create 0) [0] (ks_permutation_invariant.1 0)⟩

/-! ### Refinement against the specification text -/

theorem ksaStep_eq_specStep (key : List Byte) : ksaStep key = ksaSpecStep key := by
  funext acc i
  simp only [ksaStep, ksaSpecStep, swapAt, mask8_eq_mk]

/-- C5: each Byte Generator call performs exactly the four spec steps in
order — advance `index_i` mod 256, advance `index_j` by the permutation
value at `index_i` mod 256, swap the two permutation entries, emit the
entry at the masked sum — and the emitted byte sequence is a function of
the key and the call count since construction alone. -/
theorem ks_next_byte_matches_prga_spec :
    (∀ ks : KStream, ks_next_byte ks = prgaStepSpec ks) ∧
    (∀ key n : Nat, (keystream (ks_create key) n).1 = keystreamBytesOfKey key n) := by
  constructor
  · intro ks
    simp only [ks_next_byte, prgaStepSpec, swapAt, mask8_eq_mk]
  · intro key n
    rfl

/-- C6: the key schedule initializes the permutation to the identity,
iterates `j = (j + permutation[i] + key_bytes[i mod 8]) mod 256` with `j`
threading across iterations, swaps at each step, and ends with
`index_i = index_j = 0`; the key bytes are the little-endian extraction
`key_bytes[k] = (key >> (8*k)) & 0xFF`, so the post-KSA permutation is a
deterministic function of the key. -/
theorem ks_init_state_matches_ksa_spec :
    (∀ (key : Nat) (k : Fin 8),
      (key_to_bytes key).getD k.val 0 = keyByteSpec key k.val) ∧
    (∀ ks : KStream, ks_init_state ks = ksaSpec ks) := by
  constructor
  · intro key k
    fin_cases k <;>
      simp [key_to_bytes, key_to_bytes_loop, keyByteSpec, ← Nat.shiftRight_add]
  · intro ks
    simp only [ks_init_state, ksaSpec, ksaStep_eq_specStep]
